import Mathlib

/-!
Verification of the RemoraNotes reminder engine:
`ReminderMaterializerService` (recurrence calculation, idempotent upsert
materialization, pruning), `TodayQueueService` (scoring, ranking, capping) and
`ReminderService` (instance state machine), against their natural-language
specification.

All date math in the source operates at calendar-day granularity (`startOfDay`
is applied before any comparison), so dates and timestamps are embedded as
integer epoch days (days since 1970-01-01, proleptic Gregorian).  The date-fns
helpers used by the source (`addDays`, `isBefore`, `isAfter`,
`differenceInDays`, `setYear`, `setMonth`, `setDate`, `startOfDay`, `format`)
are given their JS `Date` semantics on that representation; the civil-calendar
conversions below implement exactly the proleptic-Gregorian arithmetic
underlying JS `Date` day handling, including day-of-month overflow: setting
day 29 in a non-leap February rolls over to March 1, it is not clamped.
-/

namespace Remora

/-! ## Calendar core

Epoch-day / civil-date conversions (the arithmetic JS `Date` performs when
reading or writing year/month/day components).  All divisors are positive, so
`/` (Euclidean division on `Int`) coincides with floored division. -/

/-- A broken-down calendar date, as produced by JS `getFullYear` /
`getMonth + 1` / `getDate`. -/
structure CivilDate where
  year : Int
  month : Int
  day : Int
deriving DecidableEq, Repr

/-- Proleptic Gregorian leap-year rule (JS `Date` semantics). -/
def isLeapYear (y : Int) : Bool :=
  (y % 4 == 0 && y % 100 != 0) || y % 400 == 0

/-- Number of days in a month of a given year (month is 1-based). -/
def daysInMonth (y m : Int) : Int :=
  if m = 2 then (if isLeapYear y then 29 else 28)
  else if m = 4 ∨ m = 6 ∨ m = 9 ∨ m = 11 then 30
  else 31

/-- Year shifted so that the year starts in March (leap day last). -/
def shiftedYear (y m : Int) : Int := if m ≤ 2 then y - 1 else y

/-- Month index in the March-based year: March is 0, February is 11. -/
def shiftedMonth (m : Int) : Int := if m ≤ 2 then m + 9 else m - 3

/-- Epoch day of the civil date `(y, m, d)`: days since 1970-01-01.
`m` must be in `[1, 12]`; `d` may be any integer and enters linearly, which is
exactly JS `Date` day-of-month overflow semantics (day 0 is the last day of
the previous month, day `daysInMonth + 1` the first of the next). -/
def toEpochDay (y m d : Int) : Int :=
  let y' := shiftedYear y m
  let era := y' / 400
  let yoe := y' - era * 400
  let doy := (153 * shiftedMonth m + 2) / 5 + d - 1
  let doe := yoe * 365 + yoe / 4 - yoe / 100 + doy
  era * 146097 + doe - 719468

/-- Broken-down civil date of an epoch day (inverse of `toEpochDay` on valid
dates); this is what JS `getFullYear`/`getMonth`/`getDate` compute. -/
def fromEpochDay (z0 : Int) : CivilDate :=
  let z := z0 + 719468
  let era := z / 146097
  let doe := z - era * 146097
  let yoe := (doe - doe / 1460 + doe / 36524 - doe / 146096) / 365
  let y := yoe + era * 400
  let doy := doe - (365 * yoe + yoe / 4 - yoe / 100)
  let mp := (5 * doy + 2) / 153
  let d := doy - (153 * mp + 2) / 5 + 1
  let m := if mp < 10 then mp + 3 else mp - 9
  { year := if m ≤ 2 then y + 1 else y, month := m, day := d }


/-! ## date-fns helpers, at day granularity

Timestamps are epoch days; `startOfDay` is the identity because the embedding
works at day granularity (every timestamp the engine compares has already been
truncated to a day boundary, or only its calendar day matters). -/

def startOfDay (t : Int) : Int := t

def addDays (t n : Int) : Int := t + n

def isBefore (a b : Int) : Bool := a < b

def isAfter (a b : Int) : Bool := b < a

def differenceInDays (a b : Int) : Int := a - b

/-- JS `date.getFullYear()`. -/
def getFullYear (t : Int) : Int := (fromEpochDay t).year

/-- date-fns `setYear`: JS `setFullYear`, keeping month and day-of-month with
overflow normalization (Feb 29 in a non-leap target year rolls to Mar 1). -/
def setYear (t y : Int) : Int :=
  toEpochDay y (fromEpochDay t).month (fromEpochDay t).day

/-- date-fns `setMonth` (0-indexed month): clamps the day-of-month to the
length of the target month before setting it. -/
def setMonth (t m0 : Int) : Int :=
  let c := fromEpochDay t
  toEpochDay c.year (m0 + 1) (min c.day (daysInMonth c.year (m0 + 1)))

/-- date-fns `setDate`: JS `Date.setDate`, with day-of-month overflow
semantics (not clamped). -/
def setDate (t d : Int) : Int :=
  let c := fromEpochDay t
  toEpochDay c.year c.month d

/-- Fixed-width decimal rendering with leading zeros. -/
def padNum (w : Nat) (n : Int) : String :=
  let s := toString n.natAbs
  let pad := String.mk (List.replicate (w - s.length) '0')
  (if n < 0 then "-" else "") ++ pad ++ s

/-- date-fns `format(d, 'yyyy-MM-dd')`. -/
def formatIsoDate (t : Int) : String :=
  let c := fromEpochDay t
  padNum 4 c.year ++ "-" ++ padNum 2 c.month ++ "-" ++ padNum 2 c.day


/-! ## Shared constants and enums (`packages/shared/src/constants/reminders.ts`) -/

inductive ReminderType
  | birthday
  | anniversary
  | follow_up
  | custom
deriving DecidableEq, Repr

inductive ReminderPriority
  | high
  | medium
  | low
deriving DecidableEq, Repr

inductive ReminderStatus
  | pending
  | completed
  | snoozed
  | skipped
deriving DecidableEq, Repr

inductive IntervalAnchor
  | last_contact
  | creation
  | custom_date
deriving DecidableEq, Repr

inductive PlanTier
  | free
  | pro
deriving DecidableEq, Repr

/-- Scoring weights for the Today Queue (ADR-004). -/
def REMINDER_TYPE_SCORES : ReminderType → Int
  | .birthday => 15
  | .anniversary => 12
  | .follow_up => 10
  | .custom => 8

def PRIORITY_MULTIPLIERS : ReminderPriority → Int
  | .high => 3
  | .medium => 2
  | .low => 1

def OVERDUE_PENALTY_PER_DAY : Int := 5

/-- Materialization window in days per plan tier. -/
def MATERIALIZATION_WINDOW : PlanTier → Int
  | .free => 30
  | .pro => 90

/-- Plan-based queue caps (`TodayQueueService`). -/
def QUEUE_CAPS : PlanTier → Nat
  | .free => 10
  | .pro => 25

/-! ## Data model -/

structure MonthDay where
  month : Int
  day : Int
deriving DecidableEq, Repr

/-- Lean (plain-object) reminder rule as queried by the materializer.
Object ids are embedded as strings; `Date` fields as epoch days. -/
structure LeanReminderRule where
  id : String
  userId : String
  contactId : String
  type : ReminderType
  fixedDate : Option MonthDay
  intervalDays : Option Int
  intervalAnchor : Option IntervalAnchor
  customAnchorDate : Option Int
  priority : ReminderPriority
  isActive : Bool
  notifyDaysBefore : Option (List Int)
  customTitle : Option String
  createdAt : Int
deriving DecidableEq, Repr

/-- Contact data relevant to anchoring (`contactId`, `lastContactedAt`). -/
structure LastContactInfo where
  contactId : String
  lastContactedAt : Option Int
deriving DecidableEq, Repr

/-! ## Recurrence Calculator (`ReminderMaterializerService.computeDueDates`) -/

/-- The candidate event date a fixed-date rule produces for a given year:
`setYear`, then `setMonth` (0-indexed), then `setDate`, then `startOfDay`,
starting from the window start. -/
def fixedEventDate (windowStart year month day : Int) : Int :=
  startOfDay (setDate (setMonth (setYear windowStart year) (month - 1)) day)

/-- `computeFixedDateDues`: candidate event dates for the window-start year
and the next year; for each notify offset, keep `eventDate - offset` if it
falls within `[windowStart, windowEnd]`. -/
def computeFixedDateDues (rule : LeanReminderRule) (windowStart windowEnd : Int) : List Int :=
  match rule.fixedDate with
  | none => []
  | some fd =>
    let notifyOffsets := rule.notifyDaysBefore.getD [0]
    let currentYear := getFullYear windowStart
    [currentYear, currentYear + 1].flatMap (fun year =>
      let eventDate := fixedEventDate windowStart year fd.month fd.day
      notifyOffsets.filterMap (fun offset =>
        let notifyDate := addDays eventDate (-offset)
        if !(isBefore notifyDate windowStart) && !(isAfter notifyDate windowEnd) then
          some notifyDate
        else none))

/-- Anchor date resolution for interval rules: last contact (falling back to
rule creation when no contact has happened), explicit custom date (falling
back to rule creation), or rule creation (also the `default` switch branch
when no anchor mode is set). -/
def resolveAnchorDate (rule : LeanReminderRule) (contactInfo : LastContactInfo) : Int :=
  match rule.intervalAnchor with
  | some .last_contact =>
    match contactInfo.lastContactedAt with
    | none => rule.createdAt
    | some lc => lc
  | some .custom_date => rule.customAnchorDate.getD rule.createdAt
  | some .creation => rule.createdAt
  | none => rule.createdAt

/-- The guard loop after the division-based skip: advance one interval while
the candidate is still before the window start.  The JS loop diverges for
`intervalDays ≤ 0`; the schema guarantees `intervalDays ≥ 1` (zod
`.min(1)`), which is the termination guard here, and under it the loop body
never actually runs. -/
def skipToWindowStart (windowStart intervalDays nextDue : Int) : Int :=
  if _h : 1 ≤ intervalDays ∧ nextDue < windowStart then
    skipToWindowStart windowStart intervalDays (nextDue + intervalDays)
  else nextDue
termination_by (windowStart - nextDue).toNat
decreasing_by
  simp_wf
  omega

/-- The emission loop of `computeFollowUpDues`: while the interval boundary is
not past the window end, emit `boundary - offset` for every notify offset
landing inside the window, then step one interval forward.  Termination again
relies on the schema bound `intervalDays ≥ 1`. -/
def collectIntervalDues (notifyOffsets : List Int)
    (windowStart windowEnd intervalDays nextDue : Int) : List Int :=
  if _h : 1 ≤ intervalDays ∧ ¬ windowEnd < nextDue then
    (notifyOffsets.filterMap (fun offset =>
      let notifyDate := addDays nextDue (-offset)
      if !(isBefore notifyDate windowStart) && !(isAfter notifyDate windowEnd) then
        some notifyDate
      else none))
    ++ collectIntervalDues notifyOffsets windowStart windowEnd intervalDays
        (nextDue + intervalDays)
  else []
termination_by (windowEnd + 1 - nextDue).toNat
decreasing_by
  simp_wf
  omega

/-- `computeFollowUpDues`: resolve the anchor, find the first interval
boundary via floored integer division (`Math.floor`), run the (dead) guard
loop, then emit boundaries until the window end. -/
def computeFollowUpDues (rule : LeanReminderRule) (windowStart windowEnd : Int)
    (contactInfo : LastContactInfo) : List Int :=
  match rule.intervalDays with
  | none => []
  | some intervalDays =>
    if intervalDays = 0 then []
    else
      let notifyOffsets := rule.notifyDaysBefore.getD [0]
      let anchorDate := startOfDay (resolveAnchorDate rule contactInfo)
      let daysSinceAnchor := differenceInDays windowStart anchorDate
      let intervalsPassed := Int.fdiv daysSinceAnchor intervalDays
      let nextDueDate := addDays anchorDate ((intervalsPassed + 1) * intervalDays)
      collectIntervalDues notifyOffsets windowStart windowEnd intervalDays
        (skipToWindowStart windowStart intervalDays nextDueDate)

/-- `computeDueDates`: dispatch on the rule type (`custom` rules use the
fixed-date algorithm when a fixed date is present, otherwise the interval
algorithm when `intervalDays` is truthy). -/
def computeDueDates (rule : LeanReminderRule) (windowStart windowEnd : Int)
    (contactInfo : LastContactInfo) : List Int :=
  match rule.type with
  | .birthday => computeFixedDateDues rule windowStart windowEnd
  | .anniversary => computeFixedDateDues rule windowStart windowEnd
  | .follow_up => computeFollowUpDues rule windowStart windowEnd contactInfo
  | .custom =>
    if rule.fixedDate.isSome then
      computeFixedDateDues rule windowStart windowEnd
    else if rule.intervalDays.getD 0 ≠ 0 then
      computeFollowUpDues rule windowStart windowEnd contactInfo
    else []

/-- `generateInstanceKey`: the idempotency key for one rule firing on one
calendar day. -/
def generateInstanceKey (ruleId : String) (dueDate : Int) : String :=
  ruleId ++ ":" ++ formatIsoDate dueDate

/-! ## Instance store and Mongo write primitives -/

/-- A `ReminderInstance` document. -/
structure ReminderInstanceDoc where
  docId : String
  ruleId : String
  userId : String
  contactId : String
  instanceKey : String
  dueDate : Int
  status : ReminderStatus
  completedAt : Option Int
  snoozedUntil : Option Int
  skippedAt : Option Int
  type : ReminderType
  priority : ReminderPriority
  contactName : Option String
  customTitle : Option String
  createdAt : Int
  updatedAt : Int
deriving DecidableEq, Repr

abbrev InstanceStore := List ReminderInstanceDoc

/-- Mongo `findOneAndUpdate` with `new: true`: update the first document
matching the filter and return the updated document; `none` when nothing
matches. -/
def updateFirst (store : InstanceStore) (filter : ReminderInstanceDoc → Bool)
    (update : ReminderInstanceDoc → ReminderInstanceDoc) :
    InstanceStore × Option ReminderInstanceDoc :=
  match store with
  | [] => ([], none)
  | doc :: rest =>
    if filter doc then (update doc :: rest, some (update doc))
    else
      let step := updateFirst rest filter update
      (doc :: step.1, step.2)

/-- One staged `updateOne ... upsert: true` keyed by `instanceKey`. -/
structure UpsertOp where
  instanceKey : String
  setOnInsert : ReminderInstanceDoc
  setUpdatedAt : Int
deriving DecidableEq, Repr

/-- Apply one upsert: if a document with the key exists, only the `$set`
(`updatedAt`) applies; otherwise the `$setOnInsert` payload together with the
`$set` field is inserted.  Returns whether an insert happened. -/
def applyUpsertOp (store : InstanceStore) (op : UpsertOp) : InstanceStore × Bool :=
  if store.any (fun doc => doc.instanceKey == op.instanceKey) then
    ((updateFirst store (fun doc => doc.instanceKey == op.instanceKey)
        (fun doc => { doc with updatedAt := op.setUpdatedAt })).1, false)
  else
    (store ++ [{ op.setOnInsert with updatedAt := op.setUpdatedAt }], true)

/-- `ReminderInstance.bulkWrite(ops, {ordered: false})`: the unordered flag
only affects error behaviour, and the model is total, so the ops apply in
order.  Returns the new store with `(upsertedCount, modifiedCount)`. -/
def bulkWrite : InstanceStore → List UpsertOp → InstanceStore × Nat × Nat
  | store, [] => (store, 0, 0)
  | store, op :: ops =>
    let step := applyUpsertOp store op
    let rest := bulkWrite step.1 ops
    (rest.1, (if step.2 then 1 else 0) + rest.2.1, (if step.2 then 0 else 1) + rest.2.2)

/-! ## Materializer (`ReminderMaterializerService`) -/

structure MaterializationResult where
  userId : String
  rulesProcessed : Nat
  instancesCreated : Nat
  instancesUpdated : Nat
  errors : List (String × String)
deriving DecidableEq, Repr

/-- Contact fields the materializer reads (`_id`, `name`, `lastContactedAt`). -/
structure ContactInfo where
  id : String
  name : Option String
  lastContactedAt : Option Int
deriving DecidableEq, Repr

/-- The staged upsert for one rule and due date: `$setOnInsert` carries the
freshly materialized pending instance (no `snoozedUntil`), `$set` always
refreshes `updatedAt`.  Mongo generates the `_id` on insert; the
deterministic instance key stands in for it in the model. -/
def buildInstanceOp (rule : LeanReminderRule) (userId : String)
    (contactName : Option String) (dueDate now : Int) : UpsertOp :=
  let instanceKey := generateInstanceKey rule.id dueDate
  { instanceKey
    setOnInsert :=
      { docId := instanceKey
        ruleId := rule.id
        userId
        contactId := rule.contactId
        instanceKey
        dueDate
        status := .pending
        completedAt := none
        snoozedUntil := none
        skippedAt := none
        type := rule.type
        priority := rule.priority
        contactName
        customTitle := rule.customTitle
        createdAt := now
        updatedAt := now }
    setUpdatedAt := now }

/-- `materializeRule`: materialize a single rule.  The two database reads
(rule by id, then its contact) enter as `Option` parameters; `today` is
`startOfDay(new Date())` and `now` the timestamp used for bookkeeping
fields. -/
def materializeRule (store : InstanceStore) (ruleId : String)
    (rule? : Option LeanReminderRule) (contact? : Option ContactInfo)
    (plan : PlanTier) (today now : Int) : InstanceStore × MaterializationResult :=
  match rule? with
  | none =>
    (store, { userId := "", rulesProcessed := 0, instancesCreated := 0,
              instancesUpdated := 0, errors := [(ruleId, "Rule not found")] })
  | some rule =>
    match contact? with
    | none =>
      (store, { userId := rule.userId, rulesProcessed := 1, instancesCreated := 0,
                instancesUpdated := 0, errors := [(ruleId, "Contact not found")] })
    | some contact =>
      let windowStart := startOfDay today
      let windowEnd := addDays windowStart (MATERIALIZATION_WINDOW plan)
      let dueDates := computeDueDates rule windowStart windowEnd
        { contactId := contact.id, lastContactedAt := contact.lastContactedAt }
      let ops := dueDates.map (fun dueDate =>
        buildInstanceOp rule rule.userId contact.name dueDate now)
      let written := bulkWrite store ops
      (written.1,
       { userId := rule.userId, rulesProcessed := 1,
         instancesCreated := written.2.1, instancesUpdated := written.2.2,
         errors := [] })

/-- The per-rule staging loop of `materializeUser`: `rulesProcessed` is
counted before the contact lookup; a rule whose contact is missing records a
per-rule error and contributes no ops; otherwise its due-date upserts are
staged.  The loop is expressed recursively, each rule's contributions
preceding those of later rules, exactly as the source loop appends them. -/
def stageRules (userId : String) (contacts : List ContactInfo)
    (windowStart windowEnd now : Int) :
    List LeanReminderRule → Nat × List (String × String) × List UpsertOp
  | [] => (0, [], [])
  | rule :: rules =>
    let rest := stageRules userId contacts windowStart windowEnd now rules
    match contacts.find? (fun c => c.id == rule.contactId) with
    | none => (rest.1 + 1, (rule.id, "Contact not found") :: rest.2.1, rest.2.2)
    | some contact =>
      let dueDates := computeDueDates rule windowStart windowEnd
        { contactId := contact.id, lastContactedAt := contact.lastContactedAt }
      (rest.1 + 1, rest.2.1,
        dueDates.map (fun dueDate =>
          buildInstanceOp rule userId contact.name dueDate now) ++ rest.2.2)

/-- `materializeUser`: materialize every active rule of a user.  `rules` is
the active-rules query result, `contacts` the batch-fetched contact map; the
staged ops of all rules are written in one bulk call and failures are
per-rule, never thrown. -/
def materializeUser (store : InstanceStore) (userId : String)
    (rules : List LeanReminderRule) (contacts : List ContactInfo)
    (plan : PlanTier) (today now : Int) : InstanceStore × MaterializationResult :=
  let windowStart := startOfDay today
  let windowEnd := addDays windowStart (MATERIALIZATION_WINDOW plan)
  let acc := stageRules userId contacts windowStart windowEnd now rules
  let written := bulkWrite store acc.2.2
  (written.1,
   { userId, rulesProcessed := acc.1, instancesCreated := written.2.1,
     instancesUpdated := written.2.2, errors := acc.2.1 })

/-- The deletion predicate of `pruneStaleInstances`: due date older than 30
days with terminal status, or older than 90 days regardless of status. -/
def pruneCondition (userId : String) (now : Int) (doc : ReminderInstanceDoc) : Bool :=
  doc.userId == userId &&
    ((decide (doc.dueDate < addDays now (-30))
        && (doc.status == .completed || doc.status == .skipped))
      || decide (doc.dueDate < addDays now (-90)))

/-- `pruneStaleInstances`: `deleteMany` under `pruneCondition`; returns the
retained store and `deletedCount`. -/
def pruneStaleInstances (store : InstanceStore) (userId : String) (now : Int) :
    InstanceStore × Nat :=
  ((store.filter fun doc => !pruneCondition userId now doc),
   (store.filter (pruneCondition userId now)).length)

/-! ## Queue Scorer (`TodayQueueService.getTodayQueue`, scoring path) -/

structure ScoredReminder where
  doc : ReminderInstanceDoc
  score : Int
  daysOverdue : Int
deriving DecidableEq, Repr

structure TodayQueueResult where
  items : List ScoredReminder
  total : Nat
  capped : Bool
  appliedCap : Nat
deriving DecidableEq, Repr

/-- The `$match` criteria: owner, `status: 'pending'`, due date up to the end
of today (restricted to within today when `includeOverdue` is false), and no
snooze still in the future (`snoozedUntil` absent or `≤ now`). -/
def matchesTodayQueue (userId : String) (includeOverdue : Bool)
    (now todayStart todayEnd : Int) (doc : ReminderInstanceDoc) : Bool :=
  doc.userId == userId && doc.status == .pending &&
    (if includeOverdue then decide (doc.dueDate ≤ todayEnd)
     else decide (todayStart ≤ doc.dueDate) && decide (doc.dueDate ≤ todayEnd)) &&
    (match doc.snoozedUntil with
     | none => true
     | some s => decide (s ≤ now))

/-- Days overdue as computed in the aggregation pipeline:
`max(0, floor((todayStart - dueDate) / msPerDay))`, which at day granularity
is `max 0 (todayStart - dueDate)`. -/
def daysOverdueOf (todayStart dueDate : Int) : Int :=
  max 0 (todayStart - dueDate)

/-- The `$switch` on the reminder type over the `REMINDER_TYPE_SCORES`
entries (with `default: REMINDER_TYPE_SCORES.custom`): on the closed enum
every value hits its own branch, so the default never fires. -/
def typeScoreOf (t : ReminderType) : Int := REMINDER_TYPE_SCORES t

/-- The `$switch` on the priority over the `PRIORITY_MULTIPLIERS` entries
(with `default: PRIORITY_MULTIPLIERS.medium`). -/
def priorityMultiplierOf (p : ReminderPriority) : Int := PRIORITY_MULTIPLIERS p

/-- The two `$addFields` stages: days overdue, type score, priority
multiplier, and the final score. -/
def scoreInstance (todayStart : Int) (doc : ReminderInstanceDoc) : ScoredReminder :=
  let daysOverdue := daysOverdueOf todayStart doc.dueDate
  { doc
    daysOverdue
    score := typeScoreOf doc.type * priorityMultiplierOf doc.priority
      + daysOverdue * OVERDUE_PENALTY_PER_DAY }

/-- The `$sort: {score: -1, dueDate: 1}` comparator: higher score first,
ties by earlier due date. -/
def queueSortLE (a b : ScoredReminder) : Bool :=
  decide (b.score < a.score)
    || (a.score == b.score && decide (a.doc.dueDate ≤ b.doc.dueDate))

/-- `getTodayQueue` (default scoring path): `$match`, score, `$sort`
descending by score with ascending due-date tiebreak, then `$facet` taking
the top `appliedCap` items alongside the uncapped total count. -/
def getTodayQueue (store : InstanceStore) (userId : String) (plan : PlanTier)
    (limit : Option Nat) (includeOverdue : Bool) (now todayStart todayEnd : Int) :
    TodayQueueResult :=
  let matched := store.filter (matchesTodayQueue userId includeOverdue now todayStart todayEnd)
  let appliedCap := limit.getD (QUEUE_CAPS plan)
  let sorted := (matched.map (scoreInstance todayStart)).mergeSort queueSortLE
  { items := sorted.take appliedCap
    total := matched.length
    capped := decide (appliedCap < matched.length)
    appliedCap }

/-! ## Instance State Machine (`ReminderService` instance operations) -/

def DEFAULT_SNOOZE_DAYS : Int := 1

/-- `markDone`: conditional update guarded on current status
pending/snoozed; sets `completed` and `completedAt`, unsets `snoozedUntil`. -/
def markDone (store : InstanceStore) (instanceId userId : String) (now : Int) :
    InstanceStore × Option ReminderInstanceDoc :=
  updateFirst store
    (fun doc => doc.docId == instanceId && doc.userId == userId &&
      (doc.status == .pending || doc.status == .snoozed))
    (fun doc => { doc with status := .completed, completedAt := some now,
                           snoozedUntil := none })

structure SnoozeInput where
  days : Option Int
  untilDate : Option Int
deriving DecidableEq, Repr

/-- `snooze`: guarded on current status pending; sets `snoozed` together with
`snoozedUntil` (the explicit `until` date, or now plus the requested days,
default 1) in one update. -/
def snooze (store : InstanceStore) (instanceId userId : String)
    (options : SnoozeInput) (now : Int) :
    InstanceStore × Option ReminderInstanceDoc :=
  let snoozedUntil :=
    match options.untilDate with
    | some u => u
    | none => addDays now (options.days.getD DEFAULT_SNOOZE_DAYS)
  updateFirst store
    (fun doc => doc.docId == instanceId && doc.userId == userId &&
      doc.status == .pending)
    (fun doc => { doc with status := .snoozed, snoozedUntil := some snoozedUntil })

/-- `unsnooze`: guarded on current status snoozed; back to `pending`, unsets
`snoozedUntil`. -/
def unsnooze (store : InstanceStore) (instanceId userId : String) :
    InstanceStore × Option ReminderInstanceDoc :=
  updateFirst store
    (fun doc => doc.docId == instanceId && doc.userId == userId &&
      doc.status == .snoozed)
    (fun doc => { doc with status := .pending, snoozedUntil := none })

/-- `skip`: guarded on current status pending/snoozed; sets `skipped` and
`skippedAt`, unsets `snoozedUntil`. -/
def skip (store : InstanceStore) (instanceId userId : String) (now : Int) :
    InstanceStore × Option ReminderInstanceDoc :=
  updateFirst store
    (fun doc => doc.docId == instanceId && doc.userId == userId &&
      (doc.status == .pending || doc.status == .snoozed))
    (fun doc => { doc with status := .skipped, skippedAt := some now,
                           snoozedUntil := none })

/-! ## Derived definitions used by the verification -/

/-- Erase the always-set bookkeeping field (`updatedAt`), leaving exactly the
insert-only fields: status, due date, denormalized display fields, and so on. -/
def scrubUpdatedAt (doc : ReminderInstanceDoc) : ReminderInstanceDoc :=
  { doc with updatedAt := 0 }

/-- Does the store already hold a document with this instance key?  This is
the match test of the upserts. -/
def hasKey (store : InstanceStore) (k : String) : Bool :=
  store.any (fun doc => doc.instanceKey == k)

/-- The implicit snooze invariant: `snoozedUntil` is set exactly on `snoozed`
instances. -/
def snoozeInvariant (doc : ReminderInstanceDoc) : Prop :=
  doc.snoozedUntil ≠ none ↔ doc.status = .snoozed

instance (doc : ReminderInstanceDoc) : Decidable (snoozeInvariant doc) := by
  unfold snoozeInvariant; infer_instance

/-- Every instance of the store satisfies the snooze invariant. -/
def storeInvariant (store : InstanceStore) : Prop :=
  ∀ doc ∈ store, snoozeInvariant doc

instance (store : InstanceStore) : Decidable (storeInvariant store) := by
  unfold storeInvariant; infer_instance

/-- A snoozed instance, used to instantiate the state-machine theorems. -/
def exSnoozedDoc : ReminderInstanceDoc :=
  { docId := "i1", ruleId := "r1", userId := "u1", contactId := "c1",
    instanceKey := "r1:2025-06-10", dueDate := toEpochDay 2025 6 10,
    status := .snoozed, completedAt := none, snoozedUntil := some 20255,
    skippedAt := none, type := .birthday, priority := .high,
    contactName := some "Ada", customTitle := none, createdAt := 0, updatedAt := 0 }

/-- A completed (terminal) instance. -/
def exCompletedDoc : ReminderInstanceDoc :=
  { exSnoozedDoc with
    docId := "i2",
    instanceKey := "r1:2025-06-11",
    status := .completed,
    completedAt := some 5,
    snoozedUntil := none }

/-- A completed instance whose completion timestamp is 40 days old but whose
due date is only 5 days old (it was completed ahead of its due date). -/
def pruneCexDoc : ReminderInstanceDoc :=
  { exSnoozedDoc with
    docId := "i3",
    instanceKey := "r1:1972-09-22",
    status := .completed,
    completedAt := some 960,
    snoozedUntil := none,
    dueDate := 995 }

/-- A completed instance whose due date is 40 days old. -/
def pruneDue40Doc : ReminderInstanceDoc :=
  { exSnoozedDoc with
    docId := "i4",
    instanceKey := "r1:1972-08-18",
    status := .completed,
    completedAt := some 960,
    snoozedUntil := none,
    dueDate := 960 }

/-- A pending instance whose due date is 40 days old. -/
def pendingDue40Doc : ReminderInstanceDoc :=
  { exSnoozedDoc with
    docId := "i5",
    instanceKey := "r2:1972-08-18",
    status := .pending,
    snoozedUntil := none,
    dueDate := 960 }

/-- A follow-up rule with a 30-day interval anchored to last activity. -/
def exIntervalRule : LeanReminderRule :=
  { id := "r9", userId := "u1", contactId := "c1", type := .follow_up,
    fixedDate := none, intervalDays := some 30, intervalAnchor := some .last_contact,
    customAnchorDate := none, priority := .medium, isActive := true,
    notifyDaysBefore := some [0], customTitle := none, createdAt := 0 }

def exIntervalInfo : LastContactInfo := { contactId := "c1", lastContactedAt := some 0 }

/-- A June 15 birthday rule with notify offsets day-of and one week before. -/
def sortCexRule : LeanReminderRule :=
  { id := "r6", userId := "u1", contactId := "c1", type := .birthday,
    fixedDate := some ⟨6, 15⟩, intervalDays := none, intervalAnchor := none,
    customAnchorDate := none, priority := .medium, isActive := true,
    notifyDaysBefore := some [0, 7], customTitle := none, createdAt := 0 }

def sortCexInfo : LastContactInfo := { contactId := "c1", lastContactedAt := none }

/-- The contact record matching `exIntervalRule`. -/
def exContact : ContactInfo := { id := "c1", name := some "Ada", lastContactedAt := some 0 }

/-- A rule referencing a contact id no contact carries. -/
def danglingRule : LeanReminderRule :=
  { id := "r-dangling", userId := "u1", contactId := "ghost", type := .follow_up,
    fixedDate := none, intervalDays := some 30, intervalAnchor := some .last_contact,
    customAnchorDate := none, priority := .medium, isActive := true,
    notifyDaysBefore := some [0], customTitle := none, createdAt := 0 }

/-- A pending high-priority follow-up due today. -/
def qHighDoc : ReminderInstanceDoc :=
  { docId := "q1", ruleId := "r1", userId := "u1", contactId := "c1",
    instanceKey := "q1", dueDate := 0, status := .pending, completedAt := none,
    snoozedUntil := none, skippedAt := none, type := .follow_up, priority := .high,
    contactName := none, customTitle := none, createdAt := 0, updatedAt := 0 }

/-- The same reminder at low priority. -/
def qLowDoc : ReminderInstanceDoc :=
  { qHighDoc with docId := "q2", instanceKey := "q2", priority := .low }

/-! # Theorems

First the calendar-core lemmas, then store lemmas, then the claim theorems. -/

/-- The year-of-era is recovered correctly from the day-of-era.  The side
condition on `doy = 365` states that the March-based year ending in that day
contains a leap day. -/
theorem yoe_recovery (yoe doy doe : Int)
    (hdoe : doe = yoe * 365 + yoe / 4 - yoe / 100 + doy)
    (h1 : 0 ≤ yoe) (h2 : yoe ≤ 399) (h3 : 0 ≤ doy) (h4 : doy ≤ 365)
    (h5 : doy = 365 → yoe % 4 = 3 ∧ (yoe % 100 ≠ 99 ∨ yoe = 399)) :
    (doe - doe / 1460 + doe / 36524 - doe / 146096) / 365 = yoe := by
  have hcd : yoe / 100 ≤ yoe / 4 := by omega
  have he : yoe / 4 ≤ doe / 1460 ∧ doe / 1460 ≤ yoe / 4 + 1 := by omega
  have hg : yoe / 100 ≤ doe / 36524 ∧ doe / 36524 ≤ yoe / 100 + 1 := by omega
  have hi : 0 ≤ doe / 146096 ∧ doe / 146096 ≤ 1 := by omega
  have hE : doe / 1460 = yoe / 4 ∨ doe / 1460 = yoe / 4 + 1 := by omega
  have hF : doe / 36524 = yoe / 100 ∨ doe / 36524 = yoe / 100 + 1 := by omega
  have hG : doe / 146096 = 0 ∨ doe / 146096 = 1 := by omega
  rcases hE with hE | hE <;> rcases hF with hF | hF <;> rcases hG with hG | hG <;> omega

/-- Division by 153 of a value sandwiched between consecutive multiples. -/
theorem div153_sandwich (x q : Int) (h1 : 153 * q ≤ x) (h2 : x < 153 * (q + 1)) :
    x / 153 = q := by omega

/-- Normal form of the final year/month adjustment of `fromEpochDay`. -/
theorem mk_year_adjust (a b c dd : Int) (h1 : 0 ≤ c) (h2 : c ≤ 11) :
    CivilDate.mk (if (if c < 10 then c + 3 else c - 9) ≤ 2 then a + b * 400 + 1 else a + b * 400)
      (if c < 10 then c + 3 else c - 9) dd
    = ⟨400 * b + a + (if c < 10 then 0 else 1), if c < 10 then c + 3 else c - 9, dd⟩ := by
  simp only [CivilDate.mk.injEq]
  split_ifs <;> simp only [and_true, true_and] <;> omega

/-- A leap civil year `y` yields the leap pattern of its March-based
predecessor year modulo the era. -/
theorem yoe_leap_of_leap (y : Int) (hleap : (y % 4 = 0 ∧ y % 100 ≠ 0) ∨ y % 400 = 0) :
    ((y - 1) - (y - 1) / 400 * 400) % 4 = 3
    ∧ (((y - 1) - (y - 1) / 400 * 400) % 100 ≠ 99 ∨ (y - 1) - (y - 1) / 400 * 400 = 399) := by
  omega

/-- `fromEpochDay` inverts the era/year-of-era/month-part/day decomposition
used by `toEpochDay`. -/
theorem fromEpochDay_of_parts (era yoe mp dd doy : Int)
    (hyoe1 : 0 ≤ yoe) (hyoe2 : yoe ≤ 399) (hmp1 : 0 ≤ mp) (hmp2 : mp ≤ 11)
    (hdd : 1 ≤ dd)
    (hdoy : doy = (153 * mp + 2) / 5 + dd - 1)
    (hgap : mp ≤ 10 → dd ≤ (153 * (mp + 1) + 2) / 5 - (153 * mp + 2) / 5)
    (hfeb : mp = 11 → dd ≤ 29 ∧ (dd = 29 → yoe % 4 = 3 ∧ (yoe % 100 ≠ 99 ∨ yoe = 399))) :
    fromEpochDay (era * 146097 + (yoe * 365 + yoe / 4 - yoe / 100 + doy) - 719468)
      = ⟨400 * era + yoe + (if mp < 10 then 0 else 1),
         if mp < 10 then mp + 3 else mp - 9, dd⟩ := by
  have hdoyb : 0 ≤ doy ∧ doy ≤ 365 := by
    rcases le_or_lt mp 10 with h | h
    · have := hgap h; omega
    · have h11 : mp = 11 := by omega
      have := (hfeb h11).1; omega
  have h5 : doy = 365 → yoe % 4 = 3 ∧ (yoe % 100 ≠ 99 ∨ yoe = 399) := by
    intro h365
    rcases le_or_lt mp 10 with h | h
    · exfalso; omega
    · have h11 : mp = 11 := by omega
      have hf := hfeb h11
      have : dd = 29 := by omega
      exact hf.2 this
  simp only [fromEpochDay]
  set doe := yoe * 365 + yoe / 4 - yoe / 100 + doy with hdoe
  have e1 : era * 146097 + doe - 719468 + 719468 = era * 146097 + doe := by ring
  rw [e1]
  have hcd : yoe / 100 ≤ yoe / 4 := by omega
  have hdoeb : 0 ≤ doe ∧ doe ≤ 146096 := by omega
  have hera : (era * 146097 + doe) / 146097 = era := by omega
  rw [hera]
  have hrem : era * 146097 + doe - era * 146097 = doe := by ring
  rw [hrem]
  have hy : (doe - doe / 1460 + doe / 36524 - doe / 146096) / 365 = yoe :=
    yoe_recovery yoe doy doe hdoe hyoe1 hyoe2 hdoyb.1 hdoyb.2 h5
  rw [hy]
  have hdoy2 : doe - (365 * yoe + yoe / 4 - yoe / 100) = doy := by omega
  rw [hdoy2]
  have hmlow : 153 * mp ≤ 5 * doy + 2 := by omega
  have hmhigh : 5 * doy + 2 < 153 * (mp + 1) := by
    rcases le_or_lt mp 10 with h | h
    · have := hgap h; omega
    · have h11 : mp = 11 := by omega
      have := (hfeb h11).1; omega
  have hmpr : (5 * doy + 2) / 153 = mp := div153_sandwich _ _ hmlow (by omega)
  rw [hmpr]
  have hddr : doy - (153 * mp + 2) / 5 + 1 = dd := by omega
  rw [hddr]
  exact mk_year_adjust yoe era mp dd hmp1 hmp2

/-- Round-trip: converting a valid civil date to an epoch day and back is the
identity. -/
theorem fromEpochDay_toEpochDay (y m d : Int) (hm1 : 1 ≤ m) (hm2 : m ≤ 12)
    (hd1 : 1 ≤ d) (hd2 : d ≤ daysInMonth y m) :
    fromEpochDay (toEpochDay y m d) = ⟨y, m, d⟩ := by
  have hly : isLeapYear y = true ↔ ((y % 4 = 0 ∧ y % 100 ≠ 0) ∨ y % 400 = 0) := by
    simp [isLeapYear]
  have hcases : (m = 2 ∧ (d ≤ 28 ∨ (d = 29 ∧ ((y % 4 = 0 ∧ y % 100 ≠ 0) ∨ y % 400 = 0))))
      ∨ ((m = 4 ∨ m = 6 ∨ m = 9 ∨ m = 11) ∧ d ≤ 30)
      ∨ (m ≠ 2 ∧ ¬(m = 4 ∨ m = 6 ∨ m = 9 ∨ m = 11) ∧ d ≤ 31) := by
    simp only [daysInMonth] at hd2
    split_ifs at hd2 with h1 h2 h3
    · rw [hly] at h2; omega
    · rw [hly] at h2; omega
    · omega
    · omega
  have harg : toEpochDay y m d
      = shiftedYear y m / 400 * 146097
        + ((shiftedYear y m - shiftedYear y m / 400 * 400) * 365
            + (shiftedYear y m - shiftedYear y m / 400 * 400) / 4
            - (shiftedYear y m - shiftedYear y m / 400 * 400) / 100
            + ((153 * shiftedMonth m + 2) / 5 + d - 1))
        - 719468 := rfl
  rw [harg]
  have hyoe1 : 0 ≤ shiftedYear y m - shiftedYear y m / 400 * 400 := by omega
  have hyoe2 : shiftedYear y m - shiftedYear y m / 400 * 400 ≤ 399 := by omega
  have hmp1 : 0 ≤ shiftedMonth m := by
    simp only [shiftedMonth]; split_ifs <;> omega
  have hmp2 : shiftedMonth m ≤ 11 := by
    simp only [shiftedMonth]; split_ifs <;> omega
  have hgap : shiftedMonth m ≤ 10
      → d ≤ (153 * (shiftedMonth m + 1) + 2) / 5 - (153 * shiftedMonth m + 2) / 5 := by
    intro hle
    have h12 : m = 1 ∨ m = 2 ∨ m = 3 ∨ m = 4 ∨ m = 5 ∨ m = 6 ∨ m = 7 ∨ m = 8 ∨ m = 9
        ∨ m = 10 ∨ m = 11 ∨ m = 12 := by omega
    rcases h12 with rfl | rfl | rfl | rfl | rfl | rfl | rfl | rfl | rfl | rfl | rfl | rfl <;>
      norm_num [shiftedMonth] at hle ⊢ <;> omega
  have hfeb : shiftedMonth m = 11
      → d ≤ 29 ∧ (d = 29
          → (shiftedYear y m - shiftedYear y m / 400 * 400) % 4 = 3
            ∧ ((shiftedYear y m - shiftedYear y m / 400 * 400) % 100 ≠ 99
                ∨ shiftedYear y m - shiftedYear y m / 400 * 400 = 399)) := by
    simp only [shiftedMonth, shiftedYear]
    split_ifs with h
    · intro h11
      have hm2' : m = 2 := by omega
      constructor
      · omega
      · intro hd29
        have hleap : (y % 4 = 0 ∧ y % 100 ≠ 0) ∨ y % 400 = 0 := by omega
        exact yoe_leap_of_leap y hleap
    · intro h11; omega
  have hmain := fromEpochDay_of_parts (shiftedYear y m / 400)
    (shiftedYear y m - shiftedYear y m / 400 * 400) (shiftedMonth m) d
    ((153 * shiftedMonth m + 2) / 5 + d - 1)
    hyoe1 hyoe2 hmp1 hmp2 hd1 rfl hgap hfeb
  rw [hmain]
  clear hcases hly harg hmain hgap hfeb hyoe1 hyoe2 hmp1 hmp2 hd2
  simp only [CivilDate.mk.injEq, shiftedMonth, shiftedYear]
  split_ifs <;> simp only [and_true, true_and] <;> omega

example : toEpochDay 1970 1 1 = 0 := by decide
example : fromEpochDay 0 = ⟨1970, 1, 1⟩ := by decide
example : toEpochDay 2025 3 1 = toEpochDay 2025 2 29 := by decide
example : toEpochDay 2024 2 29 ≠ toEpochDay 2024 3 1 := by decide
example : fromEpochDay (toEpochDay 2025 2 29) = ⟨2025, 3, 1⟩ := by decide
example : formatIsoDate 0 = "1970-01-01" := by decide
example : formatIsoDate (toEpochDay 2025 2 28) = "2025-02-28" := by decide


/-! ## Store lemmas -/

/-- `updateFirst` with no matching document returns the store unchanged. -/
theorem updateFirst_none {f : ReminderInstanceDoc → Bool} {g}
    {store : InstanceStore} (h : ∀ doc ∈ store, f doc = false) :
    updateFirst store f g = (store, none) := by
  induction store with
  | nil => rfl
  | cons doc rest ih =>
    have h1 : f doc = false := h doc (List.mem_cons_self doc rest)
    simp only [updateFirst, h1, Bool.false_eq_true, if_false]
    rw [ih (fun d hd => h d (List.mem_cons_of_mem doc hd))]

/-- `updateFirst` rewrites exactly the first matching document. -/
theorem updateFirst_append {f : ReminderInstanceDoc → Bool} {g}
    {pre : InstanceStore} {doc : ReminderInstanceDoc} {post : InstanceStore}
    (hpre : ∀ d ∈ pre, f d = false) (hdoc : f doc = true) :
    updateFirst (pre ++ doc :: post) f g = (pre ++ g doc :: post, some (g doc)) := by
  induction pre with
  | nil => simp [updateFirst, hdoc]
  | cons p ps ih =>
    have h1 : f p = false := hpre p (List.mem_cons_self p ps)
    have h2 := ih (fun d hd => hpre d (List.mem_cons_of_mem p hd))
    simp [updateFirst, h1, h2]

/-- Every document of an updated store is an old document or an updated old
document. -/
theorem mem_updateFirst_fst {f : ReminderInstanceDoc → Bool} {g}
    {store : InstanceStore} {d : ReminderInstanceDoc}
    (hd : d ∈ (updateFirst store f g).1) :
    d ∈ store ∨ ∃ d0 ∈ store, d = g d0 := by
  induction store with
  | nil => simp [updateFirst] at hd
  | cons doc rest ih =>
    simp only [updateFirst] at hd
    by_cases hf : f doc = true
    · rw [if_pos hf] at hd
      rcases List.mem_cons.mp hd with h | h
      · exact Or.inr ⟨doc, List.mem_cons_self doc rest, h⟩
      · exact Or.inl (List.mem_cons_of_mem doc h)
    · rw [if_neg hf] at hd
      rcases List.mem_cons.mp hd with h | h
      · exact Or.inl (by simp [h])
      · rcases ih h with h2 | ⟨d0, hd0, hgd0⟩
        · exact Or.inl (List.mem_cons_of_mem doc h2)
        · exact Or.inr ⟨d0, List.mem_cons_of_mem doc hd0, hgd0⟩

/-- A projection unchanged by the update function is unchanged on the whole
updated store. -/
theorem map_updateFirst {β : Type} (p : ReminderInstanceDoc → β)
    {f : ReminderInstanceDoc → Bool} {g}
    (hg : ∀ d, p (g d) = p d) (store : InstanceStore) :
    (updateFirst store f g).1.map p = store.map p := by
  induction store with
  | nil => rfl
  | cons doc rest ih =>
    simp only [updateFirst]
    by_cases hf : f doc = true
    · simp [hf, hg doc]
    · simp [hf, ih]

/-! ## Claim C7: state-machine transitions are guarded conditional updates -/

/-- C7: completing an instance whose current status is `snoozed` succeeds,
sets the status to `completed` and clears `snoozedUntil`; completing or
skipping an instance all of whose id/owner matches are `completed` or
`skipped` returns `none` (not found / not actionable) and leaves the store
entirely unchanged — no transition is possible out of `completed` or
`skipped`. -/
theorem markDone_skip_state_machine (store : InstanceStore) (i u : String) (now : Int) :
    (∀ pre doc post, store = pre ++ doc :: post →
        (∀ d ∈ pre, ¬(d.docId = i ∧ d.userId = u
            ∧ (d.status = ReminderStatus.pending ∨ d.status = ReminderStatus.snoozed))) →
        doc.docId = i → doc.userId = u → doc.status = ReminderStatus.snoozed →
        markDone store i u now
          = (pre ++ { doc with
                      status := ReminderStatus.completed,
                      completedAt := some now,
                      snoozedUntil := none } :: post,
             some { doc with
                    status := ReminderStatus.completed,
                    completedAt := some now,
                    snoozedUntil := none }))
    ∧ ((∀ d ∈ store, d.docId = i → d.userId = u →
          d.status = ReminderStatus.completed ∨ d.status = ReminderStatus.skipped) →
        markDone store i u now = (store, none) ∧ skip store i u now = (store, none)) := by
  constructor
  · intro pre doc post hstore hpre hid hu hsn
    subst hstore
    unfold markDone
    apply updateFirst_append
    · intro d hd
      have hnd := hpre d hd
      rw [Bool.eq_false_iff]
      intro hcontra
      apply hnd
      simp only [Bool.and_eq_true, Bool.or_eq_true, beq_iff_eq] at hcontra
      tauto
    · simp [hid, hu, hsn]
  · intro hterm
    have hfalse : ∀ d ∈ store,
        (d.docId == i && d.userId == u &&
          (d.status == ReminderStatus.pending || d.status == ReminderStatus.snoozed))
          = false := by
      intro d hd
      rw [Bool.eq_false_iff]
      intro hcontra
      simp only [Bool.and_eq_true, Bool.or_eq_true, beq_iff_eq] at hcontra
      obtain ⟨h1, h2, h3⟩ : d.docId = i ∧ d.userId = u
          ∧ (d.status = ReminderStatus.pending ∨ d.status = ReminderStatus.snoozed) := by
        tauto
      have hst := hterm d hd h1 h2
      rcases hst with h | h <;> rcases h3 with h3 | h3 <;> rw [h] at h3 <;> simp at h3
    exact ⟨updateFirst_none hfalse, updateFirst_none hfalse⟩

/-- Witness: completing a concrete snoozed instance succeeds and clears the
snooze; completing or skipping a concrete completed instance is a miss that
changes nothing. -/
theorem markDone_skip_state_machine_witness :
    markDone [exSnoozedDoc] "i1" "u1" 50
      = ([{ exSnoozedDoc with
            status := ReminderStatus.completed,
            completedAt := some 50,
            snoozedUntil := none }],
         some { exSnoozedDoc with
                status := ReminderStatus.completed,
                completedAt := some 50,
                snoozedUntil := none })
    ∧ markDone [exCompletedDoc] "i2" "u1" 50 = ([exCompletedDoc], none)
    ∧ skip [exCompletedDoc] "i2" "u1" 50 = ([exCompletedDoc], none) := by
  refine ⟨?_, ?_, ?_⟩
  · exact (markDone_skip_state_machine [exSnoozedDoc] "i1" "u1" 50).1 [] exSnoozedDoc []
      rfl (by simp) (by decide) (by decide) (by decide)
  · exact ((markDone_skip_state_machine [exCompletedDoc] "i2" "u1" 50).2 (by decide)).1
  · exact ((markDone_skip_state_machine [exCompletedDoc] "i2" "u1" 50).2 (by decide)).2

/-! ## Claim C10: every write preserves the snooze invariant -/

/-- An update function that preserves the snooze invariant pointwise
preserves it on the whole store. -/
theorem storeInvariant_updateFirst {store : InstanceStore}
    {f : ReminderInstanceDoc → Bool} {g}
    (hstore : storeInvariant store)
    (hg : ∀ d, snoozeInvariant d → snoozeInvariant (g d)) :
    storeInvariant (updateFirst store f g).1 := by
  intro doc hdoc
  rcases mem_updateFirst_fst hdoc with h | ⟨d0, hd0, rfl⟩
  · exact hstore doc h
  · exact hg d0 (hstore d0 hd0)

/-- One upsert preserves the store invariant when its insert payload is a
pending instance without `snoozedUntil`. -/
theorem storeInvariant_applyUpsertOp {store : InstanceStore} {op : UpsertOp}
    (h1 : storeInvariant store)
    (h2 : op.setOnInsert.status = ReminderStatus.pending
      ∧ op.setOnInsert.snoozedUntil = none) :
    storeInvariant (applyUpsertOp store op).1 := by
  unfold applyUpsertOp
  by_cases hany : store.any (fun doc => doc.instanceKey == op.instanceKey) = true
  · rw [if_pos hany]
    exact storeInvariant_updateFirst h1 (fun d hd => hd)
  · rw [if_neg hany]
    intro doc hdoc
    rcases List.mem_append.mp hdoc with h | h
    · exact h1 doc h
    · have hdoc2 : doc = { op.setOnInsert with updatedAt := op.setUpdatedAt } := by
        simpa using h
      rw [hdoc2]
      unfold snoozeInvariant
      simp [h2.1, h2.2]

/-- A bulk write of pending-only upserts preserves the store invariant. -/
theorem storeInvariant_bulkWrite : ∀ (ops : List UpsertOp) (store : InstanceStore),
    storeInvariant store →
    (∀ op ∈ ops, op.setOnInsert.status = ReminderStatus.pending
      ∧ op.setOnInsert.snoozedUntil = none) →
    storeInvariant (bulkWrite store ops).1
  | [], _, h, _ => h
  | op :: ops, store, h, hops => by
    simp only [bulkWrite]
    exact storeInvariant_bulkWrite ops _
      (storeInvariant_applyUpsertOp h (hops op (List.mem_cons_self op ops)))
      (fun o ho => hops o (List.mem_cons_of_mem op ho))

/-- Every op staged by the per-user materialization loop inserts a pending
instance without `snoozedUntil`. -/
theorem stageRules_ops_pending (userId : String) (contacts : List ContactInfo)
    (windowStart windowEnd now : Int) :
    ∀ (rules : List LeanReminderRule) (op : UpsertOp),
      op ∈ (stageRules userId contacts windowStart windowEnd now rules).2.2 →
      op.setOnInsert.status = ReminderStatus.pending
        ∧ op.setOnInsert.snoozedUntil = none
  | [], op, h => by simp [stageRules] at h
  | rule :: rules, op, h => by
    simp only [stageRules] at h
    cases hfind : contacts.find? (fun c => c.id == rule.contactId) with
    | none =>
      rw [hfind] at h
      exact stageRules_ops_pending userId contacts windowStart windowEnd now rules op h
    | some contact =>
      rw [hfind] at h
      rcases List.mem_append.mp h with h2 | h2
      · rcases List.mem_map.mp h2 with ⟨dueDate, _, rfl⟩
        exact ⟨rfl, rfl⟩
      · exact stageRules_ops_pending userId contacts windowStart windowEnd now rules op h2

/-- C10: inserts by the materializer are pending without `snoozedUntil`,
snooze sets status and `snoozedUntil` together, and `markDone`, `unsnooze`
and `skip` unset `snoozedUntil` in the same update that moves the status out
of `snoozed` — so every write preserves the invariant that `snoozedUntil` is
set iff the status is `snoozed`. -/
theorem writes_preserve_snooze_invariant (store : InstanceStore)
    (i u ruleId userId2 : String) (opts : SnoozeInput) (now today : Int)
    (rule? : Option LeanReminderRule) (contact? : Option ContactInfo)
    (plan : PlanTier) (rules : List LeanReminderRule) (contacts : List ContactInfo)
    (hinv : storeInvariant store) :
    storeInvariant (markDone store i u now).1
    ∧ storeInvariant (snooze store i u opts now).1
    ∧ storeInvariant (unsnooze store i u).1
    ∧ storeInvariant (skip store i u now).1
    ∧ storeInvariant (materializeRule store ruleId rule? contact? plan today now).1
    ∧ storeInvariant (materializeUser store userId2 rules contacts plan today now).1 := by
  refine ⟨?_, ?_, ?_, ?_, ?_, ?_⟩
  · exact storeInvariant_updateFirst hinv
      (fun d _ => by unfold snoozeInvariant; simp)
  · exact storeInvariant_updateFirst hinv
      (fun d _ => by unfold snoozeInvariant; simp)
  · exact storeInvariant_updateFirst hinv
      (fun d _ => by unfold snoozeInvariant; simp)
  · exact storeInvariant_updateFirst hinv
      (fun d _ => by unfold snoozeInvariant; simp)
  · cases rule? with
    | none => exact hinv
    | some rule =>
      cases contact? with
      | none => exact hinv
      | some contact =>
        simp only [materializeRule]
        apply storeInvariant_bulkWrite _ _ hinv
        intro op hop
        rcases List.mem_map.mp hop with ⟨dueDate, _, rfl⟩
        exact ⟨rfl, rfl⟩
  · simp only [materializeUser]
    apply storeInvariant_bulkWrite _ _ hinv
    intro op hop
    exact stageRules_ops_pending userId2 contacts _ _ now rules op hop

/-- Witness: the invariant holds on a concrete two-instance store and is
preserved by each operation. -/
theorem writes_preserve_snooze_invariant_witness :
    storeInvariant (markDone [exSnoozedDoc, exCompletedDoc] "i1" "u1" 50).1
    ∧ storeInvariant (snooze [exSnoozedDoc, exCompletedDoc] "i1" "u1" ⟨none, none⟩ 50).1
    ∧ storeInvariant (unsnooze [exSnoozedDoc, exCompletedDoc] "i1" "u1").1
    ∧ storeInvariant (skip [exSnoozedDoc, exCompletedDoc] "i1" "u1" 50).1
    ∧ storeInvariant
        (materializeRule [exSnoozedDoc, exCompletedDoc] "r1" none none PlanTier.free 20255 20255).1
    ∧ storeInvariant
        (materializeUser [exSnoozedDoc, exCompletedDoc] "u1" [] [] PlanTier.free 20255 20255).1 :=
  writes_preserve_snooze_invariant [exSnoozedDoc, exCompletedDoc]
    "i1" "u1" "r1" "u1" ⟨none, none⟩ 50 20255 none none PlanTier.free [] [] (by decide)

/-! ## Claim C8: pruning -/

/-- C8 counterexample: a completed instance whose completion timestamp is 40
days in the past but whose due date is 5 days old is NOT deleted by
`pruneStaleInstances` — the code measures age by due date, not by completion
timestamp. -/
theorem pruneStale_completedAt_cex :
    pruneCexDoc.status = ReminderStatus.completed
    ∧ pruneCexDoc.completedAt = some (1000 - 40)
    ∧ pruneCexDoc.userId = "u1"
    ∧ pruneStaleInstances [pruneCexDoc] "u1" 1000 = ([pruneCexDoc], 0) := by decide

/-- The Boolean prune condition, read as a proposition. -/
theorem pruneCondition_iff (u : String) (now : Int) (doc : ReminderInstanceDoc) :
    pruneCondition u now doc = true
      ↔ doc.userId = u
        ∧ ((doc.dueDate < now - 30
              ∧ (doc.status = ReminderStatus.completed ∨ doc.status = ReminderStatus.skipped))
            ∨ doc.dueDate < now - 90) := by
  unfold pruneCondition addDays
  simp only [Bool.and_eq_true, Bool.or_eq_true, beq_iff_eq, decide_eq_true_iff]
  constructor
  · rintro ⟨h1, h2⟩
    refine ⟨h1, ?_⟩
    rcases h2 with ⟨hlt, hst⟩ | hlt
    · exact Or.inl ⟨by omega, hst⟩
    · exact Or.inr (by omega)
  · rintro ⟨h1, h2⟩
    refine ⟨h1, ?_⟩
    rcases h2 with ⟨hlt, hst⟩ | hlt
    · exact Or.inl ⟨by omega, hst⟩
    · exact Or.inr (by omega)

/-- C8 (amended): `pruneStale` deletes exactly the instances of the user
whose DUE DATE is older than the 30-day retention with terminal status, or
older than the 90-day hard retention regardless of status; the completion
timestamp is irrelevant.  In particular a completed instance whose due date
is 40 days old is deleted, while a pending instance whose due date is 40
days old is retained. -/
theorem pruneStale_by_dueDate (store : InstanceStore) (u : String) (now : Int) :
    (∀ doc ∈ store,
      (doc ∈ (pruneStaleInstances store u now).1
        ↔ ¬(doc.userId = u
            ∧ ((doc.dueDate < now - 30
                  ∧ (doc.status = ReminderStatus.completed
                      ∨ doc.status = ReminderStatus.skipped))
                ∨ doc.dueDate < now - 90))))
    ∧ (∀ doc ∈ store, doc.userId = u → doc.status = ReminderStatus.completed →
        doc.dueDate = now - 40 → doc ∉ (pruneStaleInstances store u now).1)
    ∧ (∀ doc ∈ store, doc.status = ReminderStatus.pending →
        doc.dueDate = now - 40 → doc ∈ (pruneStaleInstances store u now).1)
    ∧ (pruneStaleInstances store u now).2
        = (store.filter (pruneCondition u now)).length := by
  have hmem : ∀ doc ∈ store,
      (doc ∈ (pruneStaleInstances store u now).1
        ↔ ¬(doc.userId = u
            ∧ ((doc.dueDate < now - 30
                  ∧ (doc.status = ReminderStatus.completed
                      ∨ doc.status = ReminderStatus.skipped))
                ∨ doc.dueDate < now - 90))) := by
    intro doc hdoc
    simp only [pruneStaleInstances, List.mem_filter, hdoc, true_and,
      Bool.not_eq_true']
    rw [← pruneCondition_iff u now doc]
    simp
  refine ⟨hmem, ?_, ?_, rfl⟩
  · intro doc hdoc h1 h2 h3 hcontra
    exact ((hmem doc hdoc).mp hcontra) ⟨h1, Or.inl ⟨by omega, Or.inl h2⟩⟩
  · intro doc hdoc h1 h2
    refine (hmem doc hdoc).mpr ?_
    rintro ⟨-, ⟨-, hst | hst⟩ | hlt⟩
    · rw [h1] at hst; simp at hst
    · rw [h1] at hst; simp at hst
    · omega

/-- Witness: at `now = 1000`, the completed instance due at day 960 is
deleted and the pending instance due at day 960 is retained. -/
theorem pruneStale_by_dueDate_witness :
    pruneDue40Doc ∉ (pruneStaleInstances [pruneDue40Doc, pendingDue40Doc] "u1" 1000).1
    ∧ pendingDue40Doc ∈ (pruneStaleInstances [pruneDue40Doc, pendingDue40Doc] "u1" 1000).1 := by
  constructor
  · exact (pruneStale_by_dueDate [pruneDue40Doc, pendingDue40Doc] "u1" 1000).2.1
      pruneDue40Doc (by decide) (by decide) (by decide) (by decide)
  · exact (pruneStale_by_dueDate [pruneDue40Doc, pendingDue40Doc] "u1" 1000).2.2.1
      pendingDue40Doc (by decide) (by decide) (by decide)

/-! ## Claim C2: the interval algorithm and exact multiples -/

/-- C2 (code bug): with the anchor exactly 60 days before the window start
(`windowStart - anchor` an exact multiple of `intervalDays = 30`), the
emitted next due date is anchor + 90, skipping the boundary anchor + 60 even
though it falls exactly on the window start.  `anchor + 60` is the smallest
`d = anchor + k * 30` with `d ≥ windowStart`, which the claim — and the
code's own comment, "Find the first due date at or after windowStart" —
requires: `Math.floor + 1` division misses boundaries equal to the window
start. -/
theorem interval_exact_multiple_skips_today :
    computeFollowUpDues exIntervalRule 60 90 exIntervalInfo = [90]
    ∧ (0 : Int) + 2 * 30 = 60 ∧ (60 : Int) ≤ 60
    ∧ (60 : Int) ∉ computeFollowUpDues exIntervalRule 60 90 exIntervalInfo := by
  have h : computeFollowUpDues exIntervalRule 60 90 exIntervalInfo = [90] := by
    simp [computeFollowUpDues, exIntervalRule, exIntervalInfo, resolveAnchorDate,
      startOfDay, differenceInDays, addDays, Int.fdiv, skipToWindowStart,
      collectIntervalDues, isBefore, isAfter]
  refine ⟨h, by norm_num, by norm_num, ?_⟩
  rw [h]
  simp

/-! ## Claim C6: calculator output and the window -/

/-- C6 counterexample: with notify offsets `[0, 7]`, the output for a June 15
birthday in a June window is `[Jun 15, Jun 8]` — not sorted ascending. -/
theorem computeDueDates_not_sorted_cex :
    computeDueDates sortCexRule (toEpochDay 2025 6 1)
        (addDays (toEpochDay 2025 6 1) 30) sortCexInfo
      = [toEpochDay 2025 6 15, toEpochDay 2025 6 8]
    ∧ ¬ toEpochDay 2025 6 15 ≤ toEpochDay 2025 6 8 := by decide

/-- Every date emitted by the fixed-date algorithm lies in the window. -/
theorem mem_computeFixedDateDues {rule : LeanReminderRule} {ws we : Int} :
    ∀ d ∈ computeFixedDateDues rule ws we, ws ≤ d ∧ d ≤ we := by
  intro d hd
  unfold computeFixedDateDues at hd
  cases hfd : rule.fixedDate with
  | none => rw [hfd] at hd; simp at hd
  | some fd =>
    rw [hfd] at hd
    simp only [List.mem_flatMap, List.mem_filterMap] at hd
    obtain ⟨year, -, offset, -, hopt⟩ := hd
    by_cases hb : (!(isBefore (addDays (fixedEventDate ws year fd.month fd.day) (-offset)) ws)
        && !(isAfter (addDays (fixedEventDate ws year fd.month fd.day) (-offset)) we)) = true
    · rw [if_pos hb] at hopt
      obtain rfl := Option.some.inj hopt
      simp only [isBefore, isAfter, addDays, Bool.and_eq_true, Bool.not_eq_true',
        decide_eq_false_iff_not] at hb
      simp only [addDays]
      omega
    · rw [if_neg hb] at hopt
      simp at hopt

/-- Every date emitted by the interval emission loop lies in the window. -/
theorem mem_collectIntervalDues (offs : List Int) (ws we I : Int) :
    ∀ nd, ∀ d ∈ collectIntervalDues offs ws we I nd, ws ≤ d ∧ d ≤ we := by
  have key : ∀ fuel nd, (we + 1 - nd).toNat ≤ fuel →
      ∀ d ∈ collectIntervalDues offs ws we I nd, ws ≤ d ∧ d ≤ we := by
    intro fuel
    induction fuel with
    | zero =>
      intro nd hfuel d hd
      rw [collectIntervalDues.eq_def] at hd
      have hneg : ¬(1 ≤ I ∧ ¬ we < nd) := by omega
      rw [dif_neg hneg] at hd
      simp at hd
    | succ n ih =>
      intro nd hfuel d hd
      rw [collectIntervalDues.eq_def] at hd
      by_cases hc : 1 ≤ I ∧ ¬ we < nd
      · rw [dif_pos hc] at hd
        rcases List.mem_append.mp hd with h | h
        · simp only [List.mem_filterMap] at h
          obtain ⟨offset, -, hopt⟩ := h
          by_cases hb : (!(isBefore (addDays nd (-offset)) ws)
              && !(isAfter (addDays nd (-offset)) we)) = true
          · rw [if_pos hb] at hopt
            obtain rfl := Option.some.inj hopt
            simp only [isBefore, isAfter, addDays, Bool.and_eq_true, Bool.not_eq_true',
              decide_eq_false_iff_not] at hb
            simp only [addDays]
            omega
          · rw [if_neg hb] at hopt
            simp at hopt
        · exact ih (nd + I) (by omega) d h
      · rw [dif_neg hc] at hd
        simp at hd
  intro nd
  exact key (we + 1 - nd).toNat nd (le_refl _)

/-- Every date emitted by the interval algorithm lies in the window. -/
theorem mem_computeFollowUpDues {rule : LeanReminderRule} {ws we : Int}
    {contactInfo : LastContactInfo} :
    ∀ d ∈ computeFollowUpDues rule ws we contactInfo, ws ≤ d ∧ d ≤ we := by
  intro d hd
  unfold computeFollowUpDues at hd
  split at hd
  · simp at hd
  · split at hd
    · simp at hd
    · exact mem_collectIntervalDues _ ws we _ _ d hd

/-- C6 (amended): every date in the recurrence calculator's output lies
within `[windowStart, windowEnd]` inclusive; the output list is however not
in general deduplicated or sorted. -/
theorem computeDueDates_within_window (rule : LeanReminderRule)
    (windowStart windowEnd : Int) (contactInfo : LastContactInfo) :
    ∀ d ∈ computeDueDates rule windowStart windowEnd contactInfo,
      windowStart ≤ d ∧ d ≤ windowEnd := by
  intro d hd
  unfold computeDueDates at hd
  split at hd
  · exact mem_computeFixedDateDues d hd
  · exact mem_computeFixedDateDues d hd
  · exact mem_computeFollowUpDues d hd
  · split at hd
    · exact mem_computeFixedDateDues d hd
    · split at hd
      · exact mem_computeFollowUpDues d hd
      · simp at hd

/-- Witness: the June 15 due date emitted for the June window lies inside
the window. -/
theorem computeDueDates_within_window_witness :
    toEpochDay 2025 6 1 ≤ toEpochDay 2025 6 15
    ∧ toEpochDay 2025 6 15 ≤ addDays (toEpochDay 2025 6 1) 30 :=
  computeDueDates_within_window sortCexRule (toEpochDay 2025 6 1)
    (addDays (toEpochDay 2025 6 1) 30) sortCexInfo
    (toEpochDay 2025 6 15) (by decide)

/-! ## Claim C1: fixed-date rules and February 29 -/

/-- C1 counterexample: with window start 2025-01-15 and a `(2, 29)`
fixed-date rule, the candidate event date computed for non-leap 2025 is
March 1, not the claimed February 28. -/
theorem feb29_substitution_cex :
    isLeapYear 2025 = false
    ∧ fixedEventDate (toEpochDay 2025 1 15) 2025 2 29 ≠ toEpochDay 2025 2 28
    ∧ fixedEventDate (toEpochDay 2025 1 15) 2025 2 29 = toEpochDay 2025 3 1 := by decide

/-- February in a non-leap year has 28 days. -/
theorem daysInMonth_feb_nonleap {y : Int} (h : isLeapYear y = false) :
    daysInMonth y 2 = 28 := by
  simp [daysInMonth, h]

/-- The Boolean leap test, read arithmetically, when false. -/
theorem isLeapYear_eq_false_iff (y : Int) :
    isLeapYear y = false ↔ ¬((y % 4 = 0 ∧ y % 100 ≠ 0) ∨ y % 400 = 0) := by
  simp [isLeapYear]

/-- In a non-leap year, day 29 of February overflows to March 1. -/
theorem toEpochDay_feb29 (y : Int) (h : isLeapYear y = false) :
    toEpochDay y 2 29 = toEpochDay y 3 1 := by
  rw [isLeapYear_eq_false_iff] at h
  simp only [toEpochDay, shiftedYear, shiftedMonth]
  norm_num
  omega

/-- C1 (amended): for every fixed-date rule with `(month, day) = (2, 29)`
and every window whose start year (or start year + 1) is a non-leap year,
the candidate event date computed for that year is MARCH 1 of that year —
JS date overflow, not the claimed February 28 substitution.  The reminder is
still never skipped (a definite event date is always produced) and the
computation never throws. -/
theorem fixedEventDate_feb29_nonleap (wy wm wd year : Int)
    (hm1 : 1 ≤ wm) (hm2 : wm ≤ 12) (hd1 : 1 ≤ wd) (hd2 : wd ≤ daysInMonth wy wm)
    (hyear : year = wy ∨ year = wy + 1)
    (hleap : isLeapYear year = false) :
    fixedEventDate (toEpochDay wy wm wd) year 2 29 = toEpochDay year 3 1 := by
  have hws : fromEpochDay (toEpochDay wy wm wd) = ⟨wy, wm, wd⟩ :=
    fromEpochDay_toEpochDay wy wm wd hm1 hm2 hd1 hd2
  have hdm2 : daysInMonth year 2 = 28 := daysInMonth_feb_nonleap hleap
  have hov : toEpochDay year 2 29 = toEpochDay year 3 1 := toEpochDay_feb29 year hleap
  have h1 : setYear (toEpochDay wy wm wd) year = toEpochDay year wm wd := by
    unfold setYear
    rw [hws]
  have key : ∃ k, 1 ≤ k ∧ k ≤ 28
      ∧ setMonth (toEpochDay year wm wd) 1 = toEpochDay year 2 k := by
    by_cases hfeb : wm = 2 ∧ wd = 29
    · obtain ⟨hwm2, hwd29⟩ := hfeb
      subst hwm2
      subst hwd29
      have h3 : fromEpochDay (toEpochDay year 2 29) = ⟨year, 3, 1⟩ := by
        rw [hov]
        exact fromEpochDay_toEpochDay year 3 1 (by norm_num) (by norm_num) (by norm_num)
          (by norm_num [daysInMonth])
      refine ⟨1, by norm_num, by norm_num, ?_⟩
      unfold setMonth
      rw [h3]
      norm_num [hdm2]
    · have hvalid : wd ≤ daysInMonth year wm := by
        by_cases h2 : wm = 2
        · subst h2
          have hne : wd ≠ 29 := fun h => hfeb ⟨rfl, h⟩
          have hw : daysInMonth wy 2 ≤ 29 := by
            unfold daysInMonth
            split_ifs <;> omega
          rw [hdm2]
          omega
        · have heq : daysInMonth year wm = daysInMonth wy wm := by
            unfold daysInMonth
            rw [if_neg h2, if_neg h2]
          omega
      have h3 : fromEpochDay (toEpochDay year wm wd) = ⟨year, wm, wd⟩ :=
        fromEpochDay_toEpochDay year wm wd hm1 hm2 hd1 hvalid
      refine ⟨min wd 28, by omega, by omega, ?_⟩
      unfold setMonth
      rw [h3]
      norm_num [hdm2]
  obtain ⟨k, hk1, hk2, hkey⟩ := key
  have h5 : fromEpochDay (toEpochDay year 2 k) = ⟨year, 2, k⟩ :=
    fromEpochDay_toEpochDay year 2 k (by norm_num) (by norm_num) hk1 (by rw [hdm2]; omega)
  unfold fixedEventDate startOfDay
  rw [show (2 : Int) - 1 = 1 by norm_num, h1, hkey]
  unfold setDate
  rw [h5]
  exact hov

/-- Witness: the amended claim at window start 2025-01-15 and year 2025. -/
theorem fixedEventDate_feb29_nonleap_witness :
    fixedEventDate (toEpochDay 2025 1 15) 2025 2 29 = toEpochDay 2025 3 1 :=
  fixedEventDate_feb29_nonleap 2025 1 15 2025 (by norm_num) (by norm_num) (by norm_num)
    (by decide) (Or.inl rfl) (by decide)

/-! ## Claim C3: materialization is idempotent and non-destructive -/

/-- `hasKey` reads off the instance-key projection of the store. -/
theorem hasKey_eq_any_keys (s : InstanceStore) (k : String) :
    hasKey s k = (s.map (fun d => d.instanceKey)).any (fun x => x == k) := by
  induction s with
  | nil => rfl
  | cons d rest ih =>
    simp only [hasKey, List.any_cons, List.map_cons] at ih ⊢
    rw [ih]

/-- `hasKey` reads off the scrubbed store (updatedAt carries no key). -/
theorem hasKey_eq_any_scrub (s : InstanceStore) (k : String) :
    hasKey s k = (s.map scrubUpdatedAt).any (fun d => d.instanceKey == k) := by
  induction s with
  | nil => rfl
  | cons d rest ih =>
    simp only [hasKey, List.any_cons, List.map_cons] at ih ⊢
    rw [ih]
    rfl

/-- Stores equal up to `updatedAt` hold the same keys. -/
theorem hasKey_congr {s t : InstanceStore}
    (h : s.map scrubUpdatedAt = t.map scrubUpdatedAt) (k : String) :
    hasKey s k = hasKey t k := by
  rw [hasKey_eq_any_scrub, hasKey_eq_any_scrub, h]

/-- An upsert whose key is already present inserts nothing and changes the
store only in `updatedAt`. -/
theorem applyUpsertOp_existing {store : InstanceStore} {op : UpsertOp}
    (h : hasKey store op.instanceKey = true) :
    (applyUpsertOp store op).2 = false
    ∧ (applyUpsertOp store op).1.map scrubUpdatedAt = store.map scrubUpdatedAt := by
  unfold hasKey at h
  unfold applyUpsertOp
  rw [if_pos h]
  exact ⟨rfl, @map_updateFirst _ scrubUpdatedAt
    (fun doc => doc.instanceKey == op.instanceKey)
    (fun doc => { doc with updatedAt := op.setUpdatedAt })
    (fun d => rfl) store⟩

/-- Keys after one upsert: the old keys plus the op's own key (for ops whose
insert payload carries its key, as all staged ops do). -/
theorem hasKey_applyUpsertOp {store : InstanceStore} {op : UpsertOp}
    (hwf : op.setOnInsert.instanceKey = op.instanceKey) (k : String) :
    hasKey (applyUpsertOp store op).1 k = true
      ↔ (hasKey store k = true ∨ op.instanceKey = k) := by
  unfold applyUpsertOp
  by_cases h : store.any (fun doc => doc.instanceKey == op.instanceKey) = true
  · rw [if_pos h]
    have hmap : (updateFirst store (fun doc => doc.instanceKey == op.instanceKey)
        (fun doc => { doc with updatedAt := op.setUpdatedAt })).1.map
          (fun d => d.instanceKey) = store.map (fun d => d.instanceKey) :=
      @map_updateFirst _ (fun d => d.instanceKey)
        (fun doc => doc.instanceKey == op.instanceKey)
        (fun doc => { doc with updatedAt := op.setUpdatedAt })
        (fun d => rfl) store
    rw [hasKey_eq_any_keys, hmap, ← hasKey_eq_any_keys]
    constructor
    · exact Or.inl
    · rintro (h2 | rfl)
      · exact h2
      · exact h
  · rw [if_neg h]
    rw [hasKey_eq_any_keys, List.map_append, List.any_append]
    simp only [List.map_cons, List.map_nil, List.any_cons, List.any_nil,
      Bool.or_false, Bool.or_eq_true, beq_iff_eq]
    rw [← hasKey_eq_any_keys]
    constructor
    · rintro (h2 | h2)
      · exact Or.inl h2
      · exact Or.inr (by rw [← h2]; exact hwf.symm)
    · rintro (h2 | rfl)
      · exact Or.inl h2
      · exact Or.inr hwf

/-- A key present before a bulk write is present after it. -/
theorem hasKey_bulkWrite_mono : ∀ (ops : List UpsertOp) (store : InstanceStore)
    (k : String),
    (∀ op ∈ ops, op.setOnInsert.instanceKey = op.instanceKey) →
    hasKey store k = true → hasKey (bulkWrite store ops).1 k = true
  | [], _, _, _, h => h
  | op :: ops, store, k, hwf, h => by
    simp only [bulkWrite]
    exact hasKey_bulkWrite_mono ops _ k
      (fun o ho => hwf o (List.mem_cons_of_mem op ho))
      ((hasKey_applyUpsertOp (hwf op (List.mem_cons_self op ops)) k).mpr (Or.inl h))

/-- After a bulk write, every written op's key is present in the store. -/
theorem hasKey_bulkWrite_self : ∀ (ops : List UpsertOp) (store : InstanceStore),
    (∀ op ∈ ops, op.setOnInsert.instanceKey = op.instanceKey) →
    ∀ op ∈ ops, hasKey (bulkWrite store ops).1 op.instanceKey = true
  | [], _, _, _, h => absurd h (List.not_mem_nil _)
  | op :: ops, store, hwf, o, ho => by
    simp only [bulkWrite]
    rcases List.mem_cons.mp ho with rfl | ho2
    · exact hasKey_bulkWrite_mono ops _ _
        (fun o2 ho2 => hwf o2 (List.mem_cons_of_mem o ho2))
        ((hasKey_applyUpsertOp (hwf o (List.mem_cons_self o ops)) _).mpr (Or.inr rfl))
    · exact hasKey_bulkWrite_self ops _
        (fun o2 ho3 => hwf o2 (List.mem_cons_of_mem op ho3)) o ho2

/-- A bulk write all of whose keys are already present upserts nothing and
changes the store only in `updatedAt`. -/
theorem bulkWrite_all_existing : ∀ (ops : List UpsertOp) (store : InstanceStore),
    (∀ op ∈ ops, hasKey store op.instanceKey = true) →
    (bulkWrite store ops).2.1 = 0
    ∧ (bulkWrite store ops).1.map scrubUpdatedAt = store.map scrubUpdatedAt
  | [], store, _ => ⟨rfl, rfl⟩
  | op :: ops, store, h => by
    have h1 := applyUpsertOp_existing (h op (List.mem_cons_self op ops))
    have h2 := bulkWrite_all_existing ops (applyUpsertOp store op).1
      (fun o ho => by
        rw [hasKey_congr h1.2]
        exact h o (List.mem_cons_of_mem op ho))
    simp only [bulkWrite]
    refine ⟨?_, h2.2.trans h1.2⟩
    rw [h1.1, h2.1]
    rfl

/-- C3: materialization is idempotent and non-destructive.  Running
`materializeRule` a second time with the rule, contact, plan and window
unchanged (only the bookkeeping clock may differ) creates zero additional
instances, and the resulting store equals the first store once the always-set
`updatedAt` timestamp is erased — so the status, due date and every other
insert-only field of every existing instance is untouched. -/
theorem materializeRule_idempotent (store : InstanceStore) (ruleId : String)
    (rule : LeanReminderRule) (contact : ContactInfo)
    (plan : PlanTier) (today now1 now2 : Int) :
    (materializeRule
        (materializeRule store ruleId (some rule) (some contact) plan today now1).1
        ruleId (some rule) (some contact) plan today now2).2.instancesCreated = 0
    ∧ (materializeRule
        (materializeRule store ruleId (some rule) (some contact) plan today now1).1
        ruleId (some rule) (some contact) plan today now2).1.map scrubUpdatedAt
      = (materializeRule store ruleId (some rule) (some contact)
          plan today now1).1.map scrubUpdatedAt := by
  simp only [materializeRule]
  apply bulkWrite_all_existing
  intro op hop
  rw [List.mem_map] at hop
  obtain ⟨d, hd, rfl⟩ := hop
  exact hasKey_bulkWrite_self _ store
    (by
      intro o ho
      rw [List.mem_map] at ho
      obtain ⟨d2, _, rfl⟩ := ho
      rfl)
    (buildInstanceOp rule rule.userId contact.name d now1)
    (List.mem_map.mpr ⟨d, hd, rfl⟩)

/-! ## Claim C9: a dangling contact reference does not abort the batch -/

/-- The staging loop counts every rule, dangling contact or not. -/
theorem stageRules_processed (u : String) (cs : List ContactInfo)
    (ws we now : Int) : ∀ (rules : List LeanReminderRule),
    (stageRules u cs ws we now rules).1 = rules.length
  | [] => rfl
  | rule :: rules => by
    simp only [stageRules]
    split <;> simp [stageRules_processed u cs ws we now rules]

/-- Every rule whose contact is missing contributes its per-rule error. -/
theorem stageRules_dangling_error (u : String) (cs : List ContactInfo)
    (ws we now : Int) : ∀ (rules : List LeanReminderRule) (r : LeanReminderRule),
    r ∈ rules → cs.find? (fun c => c.id == r.contactId) = none →
    (r.id, "Contact not found") ∈ (stageRules u cs ws we now rules).2.1
  | [], r, hr, _ => absurd hr (List.not_mem_nil r)
  | rule :: rules, r, hr, hd => by
    simp only [stageRules]
    rcases List.mem_cons.mp hr with rfl | hr2
    · rw [hd]
      exact List.mem_cons_self _ _
    · have ih := stageRules_dangling_error u cs ws we now rules r hr2 hd
      split
      · exact List.mem_cons_of_mem _ ih
      · exact ih

/-- C9: in a multi-rule materialization a rule whose target contact is
missing does not abort the batch: every rule in the list is still counted as
processed, the dangling rule contributes the per-rule entry
`(ruleId, "Contact not found")` to the returned errors array, and the call
returns the structured result instead of throwing (the model is total). -/
theorem materializeUser_partial_failure (store : InstanceStore) (userId : String)
    (rules : List LeanReminderRule) (contacts : List ContactInfo)
    (plan : PlanTier) (today now : Int) (r : LeanReminderRule)
    (hr : r ∈ rules)
    (hdangling : contacts.find? (fun c => c.id == r.contactId) = none) :
    (materializeUser store userId rules contacts plan today now).2.rulesProcessed
      = rules.length
    ∧ (r.id, "Contact not found")
        ∈ (materializeUser store userId rules contacts plan today now).2.errors := by
  unfold materializeUser
  exact ⟨stageRules_processed userId contacts _ _ now rules,
    stageRules_dangling_error userId contacts _ _ now rules r hr hdangling⟩

/-- Witness: one healthy interval rule and one dangling rule; both count as
processed and the dangling one records its error. -/
theorem materializeUser_partial_failure_witness :
    (materializeUser [] "u1" [exIntervalRule, danglingRule] [exContact]
        PlanTier.free 60 60).2.rulesProcessed
      = [exIntervalRule, danglingRule].length
    ∧ (danglingRule.id, "Contact not found")
        ∈ (materializeUser [] "u1" [exIntervalRule, danglingRule] [exContact]
            PlanTier.free 60 60).2.errors :=
  materializeUser_partial_failure [] "u1" [exIntervalRule, danglingRule] [exContact]
    PlanTier.free 60 60 danglingRule
    (List.mem_cons_of_mem exIntervalRule (List.mem_cons_self danglingRule []))
    (by decide)

/-! ## Claim C4: queue capping is exact -/

/-- C4: for an owner whose matching pending-and-due set has size `T` and tier
cap `N` (no explicit limit), `getTodayQueue` returns exactly `min T N` items,
reports `total = T` (the uncapped count) and `capped` exactly when `T > N`. -/
theorem getTodayQueue_cap_exact (store : InstanceStore) (userId : String)
    (plan : PlanTier) (includeOverdue : Bool) (now todayStart todayEnd : Int) :
    (getTodayQueue store userId plan none includeOverdue now todayStart todayEnd).items.length
      = min ((store.filter
            (matchesTodayQueue userId includeOverdue now todayStart todayEnd)).length)
          (QUEUE_CAPS plan)
    ∧ (getTodayQueue store userId plan none includeOverdue now todayStart todayEnd).total
      = (store.filter
          (matchesTodayQueue userId includeOverdue now todayStart todayEnd)).length
    ∧ ((getTodayQueue store userId plan none includeOverdue now todayStart todayEnd).capped
          = true
        ↔ (store.filter
            (matchesTodayQueue userId includeOverdue now todayStart todayEnd)).length
          > QUEUE_CAPS plan) := by
  refine ⟨?_, rfl, ?_⟩
  · simp only [getTodayQueue, Option.getD_none]
    rw [List.length_take, List.length_mergeSort, List.length_map, Nat.min_comm]
  · simp only [getTodayQueue, Option.getD_none, decide_eq_true_eq]

/-! ## Claim C5: scoring formula and sort order -/

/-- The queue comparator is transitive. -/
theorem queueSortLE_trans (a b c : ScoredReminder)
    (hab : queueSortLE a b = true) (hbc : queueSortLE b c = true) :
    queueSortLE a c = true := by
  simp only [queueSortLE, Bool.or_eq_true, Bool.and_eq_true, decide_eq_true_eq,
    beq_iff_eq] at hab hbc ⊢
  omega

/-- The queue comparator is total. -/
theorem queueSortLE_total (a b : ScoredReminder) :
    (queueSortLE a b || queueSortLE b a) = true := by
  simp only [queueSortLE, Bool.or_eq_true, Bool.and_eq_true, decide_eq_true_eq,
    beq_iff_eq]
  omega

/-- C5: every returned item's score is
`typeBaseScore * priorityMultiplier + 5 * daysOverdue` with the fixed tables
(birthday 15, anniversary 12, follow-up 10, custom 8; high 3, medium 2,
low 1); the returned queue is sorted descending by score with ties broken by
ascending due date; and a high-priority item strictly outranks a low-priority
item of the same type and the same due date. -/
theorem getTodayQueue_scoring (store : InstanceStore) (userId : String)
    (plan : PlanTier) (limit : Option Nat) (includeOverdue : Bool)
    (now todayStart todayEnd : Int) :
    (∀ r ∈ (getTodayQueue store userId plan limit includeOverdue
        now todayStart todayEnd).items,
      r.score
        = (match r.doc.type with
            | ReminderType.birthday => 15
            | ReminderType.anniversary => 12
            | ReminderType.follow_up => 10
            | ReminderType.custom => 8)
          * (match r.doc.priority with
            | ReminderPriority.high => 3
            | ReminderPriority.medium => 2
            | ReminderPriority.low => 1)
          + 5 * max 0 (todayStart - r.doc.dueDate))
    ∧ (getTodayQueue store userId plan limit includeOverdue
        now todayStart todayEnd).items.Pairwise (fun a b =>
          b.score < a.score ∨ (a.score = b.score ∧ a.doc.dueDate ≤ b.doc.dueDate))
    ∧ (∀ d1 d2 : ReminderInstanceDoc, d1.type = d2.type →
        d1.dueDate = d2.dueDate →
        d1.priority = ReminderPriority.high → d2.priority = ReminderPriority.low →
        (scoreInstance todayStart d2).score < (scoreInstance todayStart d1).score) := by
  refine ⟨?_, ?_, ?_⟩
  · intro r hr
    simp only [getTodayQueue] at hr
    have hr2 := List.mem_of_mem_take hr
    rw [List.mem_mergeSort, List.mem_map] at hr2
    obtain ⟨d, hd, rfl⟩ := hr2
    cases ht : d.type <;> cases hp : d.priority <;>
      simp [scoreInstance, typeScoreOf, priorityMultiplierOf, REMINDER_TYPE_SCORES,
        PRIORITY_MULTIPLIERS, OVERDUE_PENALTY_PER_DAY, daysOverdueOf, ht, hp] <;>
      omega
  · simp only [getTodayQueue]
    have hs := List.sorted_mergeSort queueSortLE_trans queueSortLE_total
      ((store.filter (matchesTodayQueue userId includeOverdue
          now todayStart todayEnd)).map (scoreInstance todayStart))
    have htake := List.Pairwise.sublist
      (List.take_sublist (limit.getD (QUEUE_CAPS plan)) _) hs
    refine htake.imp ?_
    intro a b hab
    simp only [queueSortLE, Bool.or_eq_true, Bool.and_eq_true, decide_eq_true_eq,
      beq_iff_eq] at hab
    exact hab
  · intro d1 d2 ht hd hp1 hp2
    have hpos : 0 < typeScoreOf d2.type := by
      cases d2.type <;> simp [typeScoreOf, REMINDER_TYPE_SCORES]
    simp only [scoreInstance, hp1, hp2, ht, hd, priorityMultiplierOf,
      PRIORITY_MULTIPLIERS, daysOverdueOf]
    omega

/-- Witness: a high-priority follow-up due today strictly outranks the same
reminder at low priority. -/
theorem getTodayQueue_scoring_witness :
    qHighDoc.type = qLowDoc.type
    ∧ (scoreInstance 0 qLowDoc).score < (scoreInstance 0 qHighDoc).score :=
  ⟨rfl, (getTodayQueue_scoring [] "u1" PlanTier.free none true 0 0 0).2.2
    qHighDoc qLowDoc rfl rfl rfl rfl⟩

end Remora
